import Mathlib

/-!
Verification of the PDF-extractor service (`src/app.py`).

The service is shallowly embedded: URLs and byte payloads are `List Char` /
`List Nat`; the HTTP client (`requests.get`) and the PDF parser (`PyPDF2`) are
external libraries, so they enter the model as function parameters
(`fetch`, `parse`); Python exceptions become `Except String`.
-/

namespace PdfExtractor

/-- Character class of the regex group `[a-zA-Z0-9-_]` used by all three
file-id patterns in `convert_google_drive_url`. -/
def isIdChar (c : Char) : Bool :=
  c.isAlpha || c.isDigit || c == '-' || c == '_'

/-- Greedy capture of the `([a-zA-Z0-9-_]+)` group: the maximal run of
id characters at the front of the remaining input. -/
def takeId (cs : List Char) : List Char :=
  cs.takeWhile isIdChar

/-- `re.search` for a pattern of the shape `<literal>([a-zA-Z0-9-_]+)`:
scan left to right for the first position where the literal matches and is
followed by at least one id character; return the greedy group captured there. -/
def searchPat (lit : List Char) : List Char → Option (List Char)
  | [] => none
  | c :: rest =>
    if lit.isPrefixOf (c :: rest) ∧ takeId (List.drop lit.length (c :: rest)) ≠ [] then
      some (takeId (List.drop lit.length (c :: rest)))
    else searchPat lit rest

/-- Literal part of the first pattern, `/file/d/([a-zA-Z0-9-_]+)`. -/
def fileDLit : List Char := String.toList "/file/d/"

/-- Literal part of the second pattern, `id=([a-zA-Z0-9-_]+)`. -/
def idEqLit : List Char := String.toList "id="

/-- Literal part of the third pattern, `/open\?id=([a-zA-Z0-9-_]+)`. -/
def openIdLit : List Char := String.toList "/open?id="

/-- The `patterns` list of `convert_google_drive_url`, in source order. -/
def fileIdPatterns : List (List Char) := [fileDLit, idEqLit, openIdLit]

/-- The `for pattern in patterns: ... break` loop: the first pattern that
matches wins and later patterns are not tried. -/
def findFileId : List (List Char) → List Char → Option (List Char)
  | [], _ => none
  | p :: ps, url =>
    match searchPat p url with
    | some fid => some fid
    | none => findFileId ps url

/-- The fixed stem of the direct-download URL produced on success. -/
def driveUcBase : List Char := String.toList "https://drive.google.com/uc?export=download&id="

/-- Message of the `ValueError` raised when no pattern extracts a file id. -/
def convertFailMsg : String := "Could not extract file ID from Google Drive URL"

/-- `convert_google_drive_url` (src/app.py:28-48). -/
def convert_google_drive_url (url : List Char) : Except String (List Char) :=
  match findFileId fileIdPatterns url with
  | some fid => Except.ok (driveUcBase ++ fid)
  | none => Except.error convertFailMsg

/-- Substring test, Python's `needle in haystack` on strings. -/
def containsSub (needle : List Char) : List Char → Bool
  | [] => needle.isEmpty
  | c :: rest => needle.isPrefixOf (c :: rest) || containsSub needle rest

/-- The substring the source tests for: `'drive.google.com' in url`. -/
def driveDomain : List Char := String.toList "drive.google.com"

/-- The URL-resolution step at the top of `download_pdf` (src/app.py:53-55):
convert the URL when the Drive domain occurs in it, else pass it through. -/
def resolve_url (url : List Char) : Except String (List Char) :=
  if containsSub driveDomain url then convert_google_drive_url url else Except.ok url

/-- An HTTP response as seen by `download_pdf`: status code, the
`content-type` header, and the body bytes. -/
structure HttpResponse where
  statusCode : Nat
  contentType : List Char
  content : List Nat
deriving DecidableEq

/-- Stands for the text of the `requests.HTTPError` raised by
`raise_for_status` for an error status code; the claims depend only on the
failure being reported with its cause, not on this library-internal text. -/
def httpStatusMessage (code : Nat) : String :=
  code.repr ++ " Error"

/-- The dead content-type check of src/app.py:62-63: the response advertises
PDF, or the URL ends in `.pdf`.  The source computes this condition and then
does `pass`, continuing regardless of its value. -/
def contentTypeIsPdf (r : HttpResponse) (url : List Char) : Bool :=
  containsSub (String.toList "application/pdf") r.contentType ||
    (String.toList ".pdf").reverse.isPrefixOf url.reverse

/-- `download_pdf` (src/app.py:50-69): resolve the URL, perform the GET,
`raise_for_status` (which raises exactly for status codes 400-599), and
return the body; every failure is re-raised as
`"Failed to download PDF: " ++ cause`. -/
def download_pdf (fetch : List Char → Except String HttpResponse)
    (url : List Char) : Except String (List Nat) :=
  match resolve_url url with
  | Except.error e => Except.error ("Failed to download PDF: " ++ e)
  | Except.ok u =>
    match fetch u with
    | Except.error e => Except.error ("Failed to download PDF: " ++ e)
    | Except.ok r =>
      if 400 ≤ r.statusCode ∧ r.statusCode < 600 then
        Except.error ("Failed to download PDF: " ++ httpStatusMessage r.statusCode)
      else Except.ok r.content

/-- Whitespace as stripped by Python's `str.strip()` (ASCII part). -/
def isSpaceChar (c : Char) : Bool :=
  c == ' ' || c == '\t' || c == '\n' || c == '\r' || c == '\x0b' || c == '\x0c'

/-- Strip trailing whitespace. -/
def rstrip (cs : List Char) : List Char :=
  (cs.reverse.dropWhile isSpaceChar).reverse

/-- Strip leading whitespace. -/
def lstrip (cs : List Char) : List Char :=
  cs.dropWhile isSpaceChar

/-- Python `str.strip()`. -/
def trim (cs : List Char) : List Char :=
  lstrip (rstrip cs)

/-- The single newline appended after each page's text. -/
def nlChar : List Char := ['\n']

/-- The page loop of `extract_text_from_pdf` (src/app.py:77-80): iterate the
page indices `0, 1, ..., n-1` in ascending order and accumulate
`text += pages[i] + "\n"`. -/
def buildText (pages : List (List Char)) : List Char :=
  (List.range pages.length).foldl (fun t i => t ++ pages.getD i [] ++ nlChar) []

/-- Page texts joined with a single newline separator (no trailing newline);
the spec's description of the extractor's output before trimming. -/
def sepJoin : List (List Char) → List Char
  | [] => []
  | [p] => p
  | p :: q :: ps => p ++ nlChar ++ sepJoin (q :: ps)

/-- `extract_text_from_pdf` (src/app.py:71-84).  `parse` stands for
`PyPDF2.PdfReader` + per-page `extract_text()`: on success it yields the
per-page texts in page order (an unreadable page yields `[]`), and on a
malformed document it fails with the parser's message. -/
def extract_text_from_pdf (parse : List Nat → Except String (List (List Char)))
    (pdf_content : List Nat) : Except String (List Char) :=
  match parse pdf_content with
  | Except.ok pages => Except.ok (trim (buildText pages))
  | Except.error e => Except.error ("Failed to extract text from PDF: " ++ e)

/-- The three values the `status` field of the health record takes. -/
inductive HealthStatusKind where
  | healthy
  | warning
  | unhealthy
deriving DecidableEq

/-- The process-wide `health_status` record (src/app.py:21-26).  Timestamps
are abstracted to `Nat` clock readings. -/
structure HealthState where
  status : HealthStatusKind
  last_check : Nat
  checks_performed : Nat
  last_error : Option String
deriving DecidableEq

/-- The module-level initial value of `health_status`: healthy, zero checks,
no error; `t0` is the clock reading taken at process start. -/
def health_status (t0 : Nat) : HealthState :=
  { status := HealthStatusKind.healthy
    last_check := t0
    checks_performed := 0
    last_error := none }

/-- Outcome of the probe `requests.get(test_url, timeout=10)`: either a
response with some status code, or a raised exception with its message. -/
inductive ProbeOutcome where
  | response (code : Nat)
  | failure (msg : String)
deriving DecidableEq

/-- `perform_health_check` (src/app.py:86-110), as a state transition on the
health record: the try/except branches set `status` and `last_error`, then the
`finally` block updates `last_check` and increments `checks_performed`
regardless of which branch ran. -/
def perform_health_check (outcome : ProbeOutcome) (now : Nat)
    (s : HealthState) : HealthState :=
  let s1 :=
    match outcome with
    | ProbeOutcome.response code =>
      if code = 200 then
        { s with status := HealthStatusKind.healthy, last_error := none }
      else
        { s with status := HealthStatusKind.warning
                 last_error := some ("Test download failed with status " ++ code.repr) }
    | ProbeOutcome.failure msg =>
      { s with status := HealthStatusKind.unhealthy, last_error := some msg }
  { s1 with last_check := now, checks_performed := s1.checks_performed + 1 }

/-- Rendering of the status enum in the health endpoint's JSON. -/
def statusText : HealthStatusKind → String
  | HealthStatusKind.healthy => "healthy"
  | HealthStatusKind.warning => "warning"
  | HealthStatusKind.unhealthy => "unhealthy"

/-- The `/health` endpoint (src/app.py:164-174): a read-only snapshot of the
health record plus a fresh timestamp; the returned state component records
that the handler never modifies the record. -/
def health_check (s : HealthState) (now : Nat) :
    (Nat × List (String × String)) × HealthState :=
  ((200,
    [("status", statusText s.status),
     ("message", "PDF text extraction server health status"),
     ("last_check", s.last_check.repr),
     ("checks_performed", s.checks_performed.repr),
     ("last_error", match s.last_error with | none => "None" | some e => e),
     ("timestamp", now.repr)]), s)

/-- Response body for a request whose JSON lacks the `url` field. -/
def missingFieldBody : List (String × String) :=
  [("error", "Missing required field: url"), ("status", "error")]

/-- Response body for a `url` value that does not start with `http`. -/
def invalidUrlBody : List (String × String) :=
  [("error", "Invalid URL format"), ("status", "error")]

/-- Response body produced by the catch-all `except` of the endpoint. -/
def errorBody (e : String) : List (String × String) :=
  [("error", e), ("status", "error")]

/-- Response body of a fully successful extraction. -/
def successBody (t : List Char) : List (String × String) :=
  [("text", t.asString), ("status", "success"),
   ("message", "Text extracted successfully")]

/-- The scheme test of src/app.py:140: `pdf_url.startswith('http')`. -/
def httpLit : List Char := String.toList "http"

/-- The `/extract-text` endpoint `extract_text` (src/app.py:124-162).
`data` is the parsed JSON body: `none` for a null/absent body, otherwise the
key-value pairs of the JSON object.  The result is the HTTP status code and
the JSON response body. -/
def extract_text (fetch : List Char → Except String HttpResponse)
    (parse : List Nat → Except String (List (List Char)))
    (data : Option (List (String × List Char))) : Nat × List (String × String) :=
  match data with
  | none => (400, missingFieldBody)
  | some kvs =>
    if kvs.isEmpty then (400, missingFieldBody)
    else
      match kvs.lookup "url" with
      | none => (400, missingFieldBody)
      | some pdf_url =>
        if httpLit.isPrefixOf pdf_url then
          match download_pdf fetch pdf_url with
          | Except.error e => (500, errorBody e)
          | Except.ok pdf_content =>
            match extract_text_from_pdf parse pdf_content with
            | Except.error e => (500, errorBody e)
            | Except.ok t => (200, successBody t)
        else (400, invalidUrlBody)

/-- Drop everything up to and including the first `://` of a URL. -/
def dropThroughSep : List Char → List Char
  | [] => []
  | c :: rest =>
    if (String.toList "://").isPrefixOf (c :: rest) then List.drop 3 (c :: rest)
    else dropThroughSep rest

/-- Modelled from the spec: the spec's Resolver contract says a Drive link is
detected "by presence of the Drive domain in its host".  The source never
computes a host, so the host of a URL is modelled here from the standard URL
shape `scheme://host[/path][?query]`: the text between the first `://` and
the next `/`, `?` or `#`. -/
def hostOf (url : List Char) : List Char :=
  (dropThroughSep url).takeWhile fun c => !(c == '/' || c == '?' || c == '#')

/-! ### Helper lemmas about prefixes and the pattern search -/

lemma isPre_self_append (l t : List Char) : l.isPrefixOf (l ++ t) = true := by
  induction l with
  | nil => simp [List.isPrefixOf]
  | cons c cs ih => simp [List.isPrefixOf, ih]

lemma isPre_ex (l : List Char) : ∀ m : List Char, l.isPrefixOf m = true → ∃ t, m = l ++ t := by
  induction l with
  | nil => intro m _; exact ⟨m, rfl⟩
  | cons c cs ih =>
    intro m h
    cases m with
    | nil => simp [List.isPrefixOf] at h
    | cons d ds =>
      simp only [List.isPrefixOf, Bool.and_eq_true, beq_iff_eq] at h
      obtain ⟨t, ht⟩ := ih ds h.2
      exact ⟨t, by rw [h.1, ht]; rfl⟩

lemma searchPat_cons (lit : List Char) (c : Char) (rest : List Char) :
    searchPat lit (c :: rest) =
      if lit.isPrefixOf (c :: rest) ∧ takeId (List.drop lit.length (c :: rest)) ≠ [] then
        some (takeId (List.drop lit.length (c :: rest)))
      else searchPat lit rest := rfl

/-- An occurrence of `lit` at offset `a.length` makes `lit` a prefix of the
corresponding drop. -/
lemma occurrence_isPre (xs a lit w : List Char) (h : xs = (a ++ lit) ++ w) :
    lit.isPrefixOf (List.drop a.length xs) = true := by
  subst h
  rw [List.append_assoc, List.drop_left]
  exact isPre_self_append lit w

/-- `searchPat` returns `none` exactly when no occurrence of the literal is
followed by an id character. -/
theorem searchPat_eq_none_iff (lit : List Char) (hlit : lit ≠ []) (url : List Char) :
    searchPat lit url = none ↔ ∀ a b, url = (a ++ lit) ++ b → takeId b = [] := by
  induction url with
  | nil =>
    simp only [searchPat, true_iff]
    intro a b h
    exfalso
    have hlen := congrArg List.length h
    simp only [List.length_nil, List.length_append] at hlen
    have : lit.length = 0 := by omega
    exact hlit (List.eq_nil_of_length_eq_zero this)
  | cons c rest ih =>
    rw [searchPat_cons]
    by_cases hcond : lit.isPrefixOf (c :: rest) = true ∧
        takeId (List.drop lit.length (c :: rest)) ≠ []
    · rw [if_pos hcond]
      constructor
      · intro h; exact absurd h (by simp)
      · intro hall
        exfalso
        obtain ⟨t, ht⟩ := isPre_ex lit (c :: rest) hcond.1
        have h1 := hall [] t (by simp [ht])
        have h2 := hcond.2
        rw [ht, List.drop_left] at h2
        exact h2 h1
    · rw [if_neg hcond, ih]
      constructor
      · intro hall a b h
        cases a with
        | nil =>
          simp only [List.nil_append] at h
          have hpre : lit.isPrefixOf (c :: rest) = true := by
            rw [h]; exact isPre_self_append lit b
          have hdrop : List.drop lit.length (c :: rest) = b := by
            rw [h]; exact List.drop_left lit b
          rcases not_and_or.mp hcond with h1 | h1
          · exact absurd hpre h1
          · rw [← hdrop]; exact not_not.mp h1
        | cons d a2 =>
          simp only [List.cons_append, List.cons_eq_cons] at h
          exact hall a2 b h.2
      · intro hall a b h
        exact hall (c :: a) b (by simp [h, List.cons_append])

/-- `searchPat` finds the leftmost occurrence of the literal that is followed
by an id character, and returns the greedy group captured there. -/
theorem searchPat_eq_some (lit : List Char) (hlit : lit ≠ []) :
    ∀ (a b url : List Char), url = (a ++ lit) ++ b → takeId b ≠ [] →
      (∀ a2 b2, url = (a2 ++ lit) ++ b2 → takeId b2 ≠ [] → a.length ≤ a2.length) →
      searchPat lit url = some (takeId b) := by
  intro a
  induction a with
  | nil =>
    intro b url heq hb _
    subst heq
    simp only [List.nil_append]
    cases hl : lit with
    | nil => exact absurd hl hlit
    | cons l ls =>
      rw [List.cons_append, searchPat_cons]
      have hpre : (l :: ls).isPrefixOf (l :: (ls ++ b)) = true := by
        rw [← List.cons_append]; exact isPre_self_append (l :: ls) b
      have hdrop : List.drop (l :: ls).length (l :: (ls ++ b)) = b := by
        rw [← List.cons_append]; exact List.drop_left (l :: ls) b
      rw [if_pos ⟨hpre, by rw [hdrop]; exact hb⟩, hdrop]
  | cons c a2 ih =>
    intro b url heq hb hmin
    subst heq
    rw [List.cons_append, List.cons_append, searchPat_cons]
    have hcond : ¬(lit.isPrefixOf (c :: (a2 ++ lit ++ b)) = true ∧
        takeId (List.drop lit.length (c :: (a2 ++ lit ++ b))) ≠ []) := by
      intro hcond
      obtain ⟨t, ht⟩ := isPre_ex lit _ hcond.1
      have h2 := hcond.2
      rw [ht, List.drop_left] at h2
      have h3 := hmin [] t
        (by rw [List.cons_append, List.cons_append, List.nil_append]; exact ht) h2
      simp at h3
    rw [if_neg hcond]
    apply ih b _ rfl hb
    intro a3 b3 h3 hb3
    have h4 := hmin (c :: a3) b3 (by simp only [List.cons_append]; rw [h3]) hb3
    simp only [List.length_cons] at h4
    omega

/-- The greedy group over `id ++ post` is exactly `id` when `id` consists of
id characters and `post` does not start with one. -/
lemma takeId_append_eq (id post : List Char) (hid : ∀ c ∈ id, isIdChar c = true)
    (hpost : ∀ c, post.head? = some c → isIdChar c = false) :
    takeId (id ++ post) = id := by
  induction id with
  | nil =>
    cases post with
    | nil => rfl
    | cons p ps =>
      simp [takeId, List.takeWhile_cons, hpost p rfl]
  | cons c cs ih =>
    have hc := hid c (List.mem_cons_self c cs)
    have ih2 := ih fun d hd => hid d (List.mem_cons_of_mem c hd)
    simp only [takeId] at ih2
    simp [takeId, List.takeWhile_cons, hc, ih2]

/-- In `l0 ++ [c] = a2 ++ w` with `w` nonempty, the final element `c` lies
in `w`. -/
lemma last_mem_of_append_eq (c d : Char) :
    ∀ (a2 l0 w2 : List Char), l0 ++ [c] = a2 ++ d :: w2 → c ∈ d :: w2 := by
  intro a2
  induction a2 with
  | nil =>
    intro l0 w2 h
    cases l0 with
    | nil =>
      simp only [List.nil_append, List.cons.injEq] at h
      rw [h.1, ← h.2]
      exact List.mem_singleton_self d
    | cons e l0b =>
      simp only [List.cons_append, List.nil_append, List.cons.injEq] at h
      rw [← h.2]
      exact List.mem_cons_of_mem d (by simp)
  | cons e a3 ih =>
    intro l0 w2 h
    cases l0 with
    | nil =>
      simp only [List.nil_append, List.cons_append, List.cons.injEq] at h
      exact absurd h.2.symm (by simp)
    | cons f l0b =>
      simp only [List.cons_append, List.cons.injEq] at h
      exact ih l0b w2 h.2

/-- If the suffix `ys` consists only of id characters and the literal ends in
a non-id character, every occurrence of the literal in `xs ++ ys` lies
entirely inside `xs`, at the same offset. -/
lemma occ_in_left (lit lit0 : List Char) (c : Char) (a b xs ys : List Char)
    (hlit : lit = lit0 ++ [c]) (hc : isIdChar c = false)
    (hys : ∀ ch ∈ ys, isIdChar ch = true)
    (heq : (a ++ lit) ++ b = xs ++ ys) :
    ∃ w, xs = (a ++ lit) ++ w := by
  rw [List.append_assoc] at heq
  rcases List.append_eq_append_iff.mp heq with ⟨a2, hxs, h2⟩ | ⟨c2, _, hys2⟩
  · rcases List.append_eq_append_iff.mp h2 with ⟨w, ha2, _⟩ | ⟨w, hw, hys3⟩
    · exact ⟨w, by rw [hxs, ha2, List.append_assoc]⟩
    · cases w with
      | nil =>
        rw [List.append_nil] at hw
        exact ⟨[], by rw [hxs, ← hw, List.append_nil]⟩
      | cons d w2 =>
        exfalso
        have hcw : c ∈ d :: w2 := last_mem_of_append_eq c d a2 lit0 w2 (by rw [← hlit, hw])
        have : c ∈ ys := by rw [hys3]; exact List.mem_append_left b hcw
        rw [hys c this] at hc
        exact Bool.true_eq_false.mp hc
  · exfalso
    have hcl : c ∈ lit := by rw [hlit]; exact List.mem_append_right lit0 (by simp)
    have : c ∈ ys := by
      rw [hys2]
      exact List.mem_append_right c2 (List.mem_append_left b hcl)
    rw [hys c this] at hc
    exact Bool.true_eq_false.mp hc

/-- Substring occurrence survives appending on the right. -/
lemma containsSub_append (n xs ys : List Char) (h : containsSub n xs = true) :
    containsSub n (xs ++ ys) = true := by
  induction xs with
  | nil =>
    simp only [containsSub, List.isEmpty_iff] at h
    subst h
    cases ys with
    | nil => rfl
    | cons c rest => simp [containsSub, List.isPrefixOf]
  | cons c rest ih =>
    rw [List.cons_append]
    simp only [containsSub, Bool.or_eq_true] at h ⊢
    rcases h with h | h
    · obtain ⟨t, ht⟩ := isPre_ex n (c :: rest) h
      left
      have hshape : c :: (rest ++ ys) = n ++ (t ++ ys) := by
        rw [← List.cons_append, ht, List.append_assoc]
      rw [hshape]
      exact isPre_self_append n (t ++ ys)
    · right; exact ih h

/-! ### Lemmas about trimming and the page-join -/

lemma rstrip_append_nl (x : List Char) : rstrip (x ++ nlChar) = rstrip x := by
  have hnl : isSpaceChar '\n' = true := by decide
  have hrev : (x ++ nlChar).reverse = '\n' :: x.reverse := by
    simp [nlChar, List.reverse_append]
  simp only [rstrip, hrev, List.dropWhile_cons, hnl, if_true]

lemma trim_append_nl (x : List Char) : trim (x ++ nlChar) = trim x := by
  simp only [trim, rstrip_append_nl]

lemma foldl_range_getD (ps : List (List Char)) : ∀ acc : List Char,
    (List.range ps.length).foldl (fun t i => t ++ ps.getD i [] ++ nlChar) acc
      = ps.foldl (fun t p => t ++ p ++ nlChar) acc := by
  induction ps with
  | nil => intro acc; rfl
  | cons p ps ih =>
    intro acc
    rw [List.length_cons, List.range_succ_eq_map, List.foldl_cons, List.foldl_map,
      List.foldl_cons]
    simp only [List.getD_cons_zero, List.getD_cons_succ]
    exact ih (acc ++ p ++ nlChar)

lemma foldl_append_flatten (ps : List (List Char)) : ∀ acc : List Char,
    ps.foldl (fun t p => t ++ p ++ nlChar) acc
      = acc ++ (ps.map (fun p => p ++ nlChar)).flatten := by
  induction ps with
  | nil => intro acc; simp
  | cons p ps ih =>
    intro acc
    rw [List.foldl_cons, ih (acc ++ p ++ nlChar)]
    simp [List.append_assoc]

lemma flatten_map_eq_sepJoin : ∀ (ps : List (List Char)) (p : List Char),
    ((p :: ps).map (fun q => q ++ nlChar)).flatten = sepJoin (p :: ps) ++ nlChar := by
  intro ps
  induction ps with
  | nil => intro p; simp [sepJoin]
  | cons q ps ih =>
    intro p
    rw [List.map_cons, List.flatten_cons, ih q]
    simp [sepJoin, List.append_assoc]

/-- The accumulated `text` of the source's page loop differs from the
newline-separated join only by one trailing newline, which `strip` removes. -/
lemma trim_buildText_eq (pages : List (List Char)) :
    trim (buildText pages) = trim (sepJoin pages) := by
  cases pages with
  | nil => rfl
  | cons p ps =>
    have h1 : buildText (p :: ps) = sepJoin (p :: ps) ++ nlChar := by
      rw [buildText, foldl_range_getD, foldl_append_flatten, flatten_map_eq_sepJoin]
      simp
    rw [h1, trim_append_nl]

/-! ### Position lemmas for occurrences inside concrete strings -/

lemma no_occ_of_bounded (lit xs : List Char) (hne : lit ≠ [])
    (hb : ∀ k, k < xs.length → lit.isPrefixOf (List.drop k xs) = false) :
    ∀ k, lit.isPrefixOf (List.drop k xs) = false := by
  intro k
  rcases Nat.lt_or_ge k xs.length with h | h
  · exact hb k h
  · rw [List.drop_eq_nil_of_le h]
    cases lit with
    | nil => exact absurd rfl hne
    | cons c cs => simp [List.isPrefixOf]

/-- `/file/d/` does not occur anywhere in the direct-download stem. -/
lemma fileD_not_in_base : ∀ k, fileDLit.isPrefixOf (List.drop k driveUcBase) = false :=
  no_occ_of_bounded fileDLit driveUcBase (by decide) (by decide)

/-- The only occurrence of `id=` in the direct-download stem is at offset 44,
right before the appended file id. -/
lemma idEq_pos_in_base : ∀ k, idEqLit.isPrefixOf (List.drop k driveUcBase) = true → k = 44 := by
  have hb : ∀ k, k < driveUcBase.length →
      idEqLit.isPrefixOf (List.drop k driveUcBase) = true → k = 44 := by decide
  intro k h
  rcases Nat.lt_or_ge k driveUcBase.length with h2 | h2
  · exact hb k h2 h
  · rw [List.drop_eq_nil_of_le h2] at h
    exact absurd h (by decide)

/-- The direct-download stem with its final `id=` split off. -/
def ucStem : List Char := String.toList "https://drive.google.com/uc?export=download&"

lemma ucStem_append_idEq : ucStem ++ idEqLit = driveUcBase := by decide

lemma ucStem_len : ucStem.length = 44 := by decide

/-- Decidable version of "does not start with an id character". -/
def headIdFree (post : List Char) : Bool :=
  match post with
  | [] => true
  | c :: _ => !(isIdChar c)

lemma head_of_headIdFree (post : List Char) (h : headIdFree post = true) :
    ∀ c, post.head? = some c → isIdChar c = false := by
  cases post with
  | nil => intro c hc; simp at hc
  | cons p ps =>
    intro c hc
    simp only [List.head?_cons, Option.some.injEq] at hc
    subst hc
    simpa [headIdFree] using h

/-- Equality of embedded outcomes is decidable, so witnesses and
counterexamples can be checked by evaluation. -/
instance {e a : Type} [DecidableEq e] [DecidableEq a] : DecidableEq (Except e a)
  | Except.error x, Except.error y =>
    if h : x = y then isTrue (by rw [h])
    else isFalse (by intro hc; injection hc; contradiction)
  | Except.error _, Except.ok _ => isFalse (fun hc => Except.noConfusion hc)
  | Except.ok _, Except.error _ => isFalse (fun hc => Except.noConfusion hc)
  | Except.ok x, Except.ok y =>
    if h : x = y then isTrue (by rw [h])
    else isFalse (by intro hc; injection hc; contradiction)

/-! ### Concrete fixtures used by witnesses and counterexamples -/

/-- A fetch stub; the Resolver claims below fail before any fetch happens. -/
def fetchNoop : List Char → Except String HttpResponse :=
  fun _ => Except.error "unreachable"

def preW : List Char := String.toList "https://drive.google.com"

def idW : List Char := String.toList "1a2b-C_3"

def postW : List Char := String.toList "/view?usp=sharing"

def urlFolderW : List Char := String.toList "https://drive.google.com/folderview"

def urlEvil : List Char := String.toList "http://evil.com/doc?id=abc&src=drive.google.com"

def urlPlain : List Char := String.toList "https://example.com/report.pdf"

/-! ### Claims about the URL Resolver -/

/-- Claim C3: for a Drive URL containing a `/file/d/<id>` segment (the id being
the full greedy run of id characters after the first occurrence of `/file/d/`),
`convert_google_drive_url` outputs exactly
`https://drive.google.com/uc?export=download&id=<id>`.  The pattern priority is
structural: `findFileId` consults `id=` and `/open?id=` only when `/file/d/`
produced no match, so the output is pattern (a)'s id even when `a` or `post`
also contain an `id=` occurrence. -/
theorem convert_drive_file_d (a id post : List Char) (hne : id ≠ [])
    (hid : ∀ c ∈ id, isIdChar c = true) (hpost : headIdFree post = true)
    (hleft : ∀ k, k < a.length →
      fileDLit.isPrefixOf (List.drop k (a ++ fileDLit ++ id ++ post)) = false) :
    convert_google_drive_url (a ++ fileDLit ++ id ++ post) =
      Except.ok (driveUcBase ++ id) := by
  have htake : takeId (id ++ post) = id :=
    takeId_append_eq id post hid (head_of_headIdFree post hpost)
  have hmin : ∀ a2 b2, a ++ fileDLit ++ id ++ post = a2 ++ fileDLit ++ b2 →
      takeId b2 ≠ [] → a.length ≤ a2.length := by
    intro a2 b2 heq2 _
    rcases Nat.lt_or_ge a2.length a.length with hlt | hge
    · have h1 := occurrence_isPre (a ++ fileDLit ++ id ++ post) a2 fileDLit b2 heq2
      rw [hleft a2.length hlt] at h1
      exact absurd h1 (by decide)
    · exact hge
  have hsome := searchPat_eq_some fileDLit (by decide) a (id ++ post)
    (a ++ fileDLit ++ id ++ post) (List.append_assoc (a ++ fileDLit) id post)
    (by rw [htake]; exact hne) hmin
  rw [htake] at hsome
  simp only [convert_google_drive_url, fileIdPatterns, findFileId, hsome]

/-- Witness for C3 on a real-shaped sharing URL. -/
theorem convert_drive_file_d_witness :
    convert_google_drive_url (preW ++ fileDLit ++ idW ++ postW) =
      Except.ok (driveUcBase ++ idW) :=
  convert_drive_file_d preW idW postW (by decide) (by decide) (by decide) (by decide)

/-- Claim C4 (amended): the source detects a Drive link by substring presence
of `drive.google.com` anywhere in the URL string, not in its host; every URL
not containing that substring passes through the resolution step unchanged. -/
theorem resolve_url_non_drive (url : List Char)
    (h : containsSub driveDomain url = false) :
    resolve_url url = Except.ok url := by
  simp [resolve_url, h]

/-- Witness for the amended C4. -/
theorem resolve_url_non_drive_witness :
    containsSub driveDomain urlPlain = false ∧
    resolve_url urlPlain = Except.ok urlPlain :=
  ⟨by decide, resolve_url_non_drive urlPlain (by decide)⟩

/-- Claim C4 counterexample: a URL whose host is `evil.com` — so the Drive
domain is absent from the host — is nevertheless rewritten by the resolution
step, because the source tests the whole URL string for the substring. -/
theorem resolve_url_host_counterexample :
    hostOf urlEvil = String.toList "evil.com" ∧
    containsSub driveDomain (hostOf urlEvil) = false ∧
    resolve_url urlEvil ≠ Except.ok urlEvil := by decide

/-- Claim C9: a URL containing the Drive domain from which none of the three
patterns extracts an id makes `convert_google_drive_url` fail with the
invalid-URL message, and `download_pdf` propagates that failure (wrapped),
for every possible fetch behavior — the fetch is never reached. -/
theorem drive_url_no_id_fails (url : List Char)
    (hdrive : containsSub driveDomain url = true)
    (hno : ∀ p ∈ fileIdPatterns, ∀ a b, url = a ++ p ++ b → takeId b = []) :
    convert_google_drive_url url = Except.error convertFailMsg ∧
    ∀ fetch, download_pdf fetch url =
      Except.error ("Failed to download PDF: " ++ convertFailMsg) := by
  have h1 : searchPat fileDLit url = none :=
    (searchPat_eq_none_iff fileDLit (by decide) url).mpr
      (hno fileDLit (by simp [fileIdPatterns]))
  have h2 : searchPat idEqLit url = none :=
    (searchPat_eq_none_iff idEqLit (by decide) url).mpr
      (hno idEqLit (by simp [fileIdPatterns]))
  have h3 : searchPat openIdLit url = none :=
    (searchPat_eq_none_iff openIdLit (by decide) url).mpr
      (hno openIdLit (by simp [fileIdPatterns]))
  have hconv : convert_google_drive_url url = Except.error convertFailMsg := by
    simp [convert_google_drive_url, fileIdPatterns, findFileId, h1, h2, h3]
  refine ⟨hconv, fun fetch => ?_⟩
  simp [download_pdf, resolve_url, hdrive, hconv]

/-- Witness for C9 on a Drive folder-view URL carrying no file id. -/
theorem drive_url_no_id_fails_witness :
    convert_google_drive_url urlFolderW = Except.error convertFailMsg ∧
    download_pdf fetchNoop urlFolderW =
      Except.error ("Failed to download PDF: " ++ convertFailMsg) := by
  have hno : ∀ p ∈ fileIdPatterns, ∀ a b, urlFolderW = a ++ p ++ b → takeId b = [] := by
    intro p hp
    have hp2 : p = fileDLit ∨ p = idEqLit ∨ p = openIdLit := by
      simpa [fileIdPatterns] using hp
    rcases hp2 with rfl | rfl | rfl
    · exact (searchPat_eq_none_iff fileDLit (by decide) urlFolderW).mp (by decide)
    · exact (searchPat_eq_none_iff idEqLit (by decide) urlFolderW).mp (by decide)
    · exact (searchPat_eq_none_iff openIdLit (by decide) urlFolderW).mp (by decide)
  have h := drive_url_no_id_fails urlFolderW (by decide) hno
  exact ⟨h.1, h.2 fetchNoop⟩

/-- Claim C10: conversion is idempotent — applying the resolution step to its
own canonical output `https://drive.google.com/uc?export=download&id=<id>`
returns that URL unchanged (the `id=` pattern re-extracts exactly `<id>`). -/
theorem convert_drive_idempotent (id : List Char) (hne : id ≠ [])
    (hid : ∀ c ∈ id, isIdChar c = true) :
    resolve_url (driveUcBase ++ id) = Except.ok (driveUcBase ++ id) ∧
    convert_google_drive_url (driveUcBase ++ id) = Except.ok (driveUcBase ++ id) := by
  have htake : takeId id = id := by
    have h := takeId_append_eq id [] hid (by intro c hc; simp at hc)
    simpa using h
  have hnone : searchPat fileDLit (driveUcBase ++ id) = none := by
    apply (searchPat_eq_none_iff fileDLit (by decide) _).mpr
    intro a b heq
    exfalso
    obtain ⟨w, hw⟩ := occ_in_left fileDLit (String.toList "/file/d") '/' a b driveUcBase id
      (by decide) (by decide) hid heq.symm
    have h1 := occurrence_isPre driveUcBase a fileDLit w hw
    rw [fileD_not_in_base a.length] at h1
    exact absurd h1 (by decide)
  have hmin : ∀ a2 b2, driveUcBase ++ id = a2 ++ idEqLit ++ b2 → takeId b2 ≠ [] →
      ucStem.length ≤ a2.length := by
    intro a2 b2 heq2 _
    obtain ⟨w, hw⟩ := occ_in_left idEqLit (String.toList "id") '=' a2 b2 driveUcBase id
      (by decide) (by decide) hid heq2.symm
    have h1 := occurrence_isPre driveUcBase a2 idEqLit w hw
    have h2 := idEq_pos_in_base a2.length h1
    rw [ucStem_len, h2]
  have hsome : searchPat idEqLit (driveUcBase ++ id) = some id := by
    have h := searchPat_eq_some idEqLit (by decide) ucStem id (driveUcBase ++ id)
      (by rw [ucStem_append_idEq]) (by rw [htake]; exact hne) hmin
    rw [h, htake]
  have hconv : convert_google_drive_url (driveUcBase ++ id) =
      Except.ok (driveUcBase ++ id) := by
    simp [convert_google_drive_url, fileIdPatterns, findFileId, hnone, hsome]
  have hsub : containsSub driveDomain (driveUcBase ++ id) = true :=
    containsSub_append driveDomain driveUcBase id (by decide)
  exact ⟨by simp [resolve_url, hsub, hconv], hconv⟩

/-- Witness for C10. -/
theorem convert_drive_idempotent_witness :
    resolve_url (driveUcBase ++ idW) = Except.ok (driveUcBase ++ idW) ∧
    convert_google_drive_url (driveUcBase ++ idW) = Except.ok (driveUcBase ++ idW) :=
  convert_drive_idempotent idW (by decide) (by decide)

/-! ### Claims about the Fetcher and the Extractor -/

def parseW : List Nat → Except String (List (List Char)) :=
  fun _ => Except.ok [String.toList "Hello", [], String.toList "World"]

def parseBad : List Nat → Except String (List (List Char)) :=
  fun _ => Except.error "bad pdf"

def urlXW : List Char := String.toList "http://x/file"

def respW : HttpResponse :=
  { statusCode := 200, contentType := String.toList "text/html", content := [1, 2, 3] }

def fetchOkW : List Char → Except String HttpResponse := fun _ => Except.ok respW

def fetchPdfW : List Char → Except String HttpResponse :=
  fun _ => Except.ok { statusCode := 200
                       contentType := String.toList "application/pdf"
                       content := [1] }

def fetchFail : List Char → Except String HttpResponse := fun _ => Except.error "boom"

def resp304 : HttpResponse :=
  { statusCode := 304, contentType := String.toList "text/html", content := [9, 9] }

def fetch304 : List Char → Except String HttpResponse := fun _ => Except.ok resp304

def url304 : List Char := String.toList "http://example.com/doc"

/-- Claim C1: on a byte sequence the parser reads as an N-page document,
`extract_text_from_pdf` returns the page texts in ascending page order joined
by newlines, trimmed of leading/trailing whitespace; pages with no extractable
text contribute an empty segment and the call still succeeds. -/
theorem extract_pages_joined (parse : List Nat → Except String (List (List Char)))
    (content : List Nat) (pages : List (List Char))
    (h : parse content = Except.ok pages) :
    extract_text_from_pdf parse content = Except.ok (trim (sepJoin pages)) := by
  simp only [extract_text_from_pdf, h, trim_buildText_eq]

/-- Witness for C1: a three-page document whose middle page has no text. -/
theorem extract_pages_joined_witness :
    extract_text_from_pdf parseW [37] =
      Except.ok (trim (sepJoin [String.toList "Hello", [], String.toList "World"])) ∧
    trim (sepJoin [String.toList "Hello", [], String.toList "World"]) =
      String.toList "Hello\n\nWorld" :=
  ⟨extract_pages_joined parseW [37] _ rfl, by decide⟩

/-- Claim C7 (amended): a transport failure or a 400-599 response status makes
`download_pdf` fail with the wrapped cause; any response with status below 400
— including non-2xx codes such as 304 — succeeds and yields the full body,
and a Content-Type mismatch is never an error. -/
theorem download_pdf_failure_modes (fetch : List Char → Except String HttpResponse)
    (url u : List Char) (hres : resolve_url url = Except.ok u) :
    (∀ m, fetch u = Except.error m →
      download_pdf fetch url = Except.error ("Failed to download PDF: " ++ m)) ∧
    (∀ r, fetch u = Except.ok r → 400 ≤ r.statusCode → r.statusCode < 600 →
      download_pdf fetch url =
        Except.error ("Failed to download PDF: " ++ httpStatusMessage r.statusCode)) ∧
    (∀ r, fetch u = Except.ok r → r.statusCode < 400 → contentTypeIsPdf r u = false →
      download_pdf fetch url = Except.ok r.content) ∧
    (∀ r, fetch u = Except.ok r → r.statusCode < 400 →
      download_pdf fetch url = Except.ok r.content) := by
  refine ⟨?_, ?_, ?_, ?_⟩
  · intro m hm
    simp only [download_pdf, hres, hm]
  · intro r hr h4 h6
    simp only [download_pdf, hres, hr]
    rw [if_pos ⟨h4, h6⟩]
  · intro r hr h4 _
    simp only [download_pdf, hres, hr]
    rw [if_neg (by omega)]
  · intro r hr h4
    simp only [download_pdf, hres, hr]
    rw [if_neg (by omega)]

/-- Witness for the amended C7: a 200 response with a non-PDF content type
still yields the body. -/
theorem download_pdf_failure_modes_witness :
    contentTypeIsPdf respW urlXW = false ∧
    download_pdf fetchOkW urlXW = Except.ok respW.content := by
  have h := download_pdf_failure_modes fetchOkW urlXW urlXW (by decide)
  exact ⟨by decide, h.2.2.1 respW rfl (by decide) (by decide)⟩

/-- Claim C7 counterexample: a 304 status is not a 2xx success, yet
`download_pdf` returns the body instead of a `DownloadFailed` error, because
`raise_for_status` raises only for statuses 400-599. -/
theorem download_pdf_non2xx_counterexample :
    fetch304 url304 = Except.ok resp304 ∧
    ¬(200 ≤ resp304.statusCode ∧ resp304.statusCode ≤ 299) ∧
    download_pdf fetch304 url304 = Except.ok resp304.content := by decide

/-- Claim C8: whenever the parser rejects the byte sequence,
`extract_text_from_pdf` fails with the wrapped parser cause, and the request
handler answers such a failure with a 500 JSON error response instead of
crashing. -/
theorem extract_failure_propagates (parse : List Nat → Except String (List (List Char)))
    (content : List Nat) (e : String) (hp : parse content = Except.error e) :
    extract_text_from_pdf parse content =
      Except.error ("Failed to extract text from PDF: " ++ e) ∧
    ∀ fetch kvs u, kvs.lookup "url" = some u → httpLit.isPrefixOf u = true →
      download_pdf fetch u = Except.ok content →
      extract_text fetch parse (some kvs) =
        (500, errorBody ("Failed to extract text from PDF: " ++ e)) := by
  have hext : extract_text_from_pdf parse content =
      Except.error ("Failed to extract text from PDF: " ++ e) := by
    simp only [extract_text_from_pdf, hp]
  refine ⟨hext, ?_⟩
  intro fetch kvs u hlook hpre hdl
  cases kvs with
  | nil => simp at hlook
  | cons kv kvs2 => simp [extract_text, hlook, hpre, hdl, hext]

/-- Witness for C8. -/
theorem extract_failure_propagates_witness :
    extract_text_from_pdf parseBad [1] =
      Except.error ("Failed to extract text from PDF: " ++ "bad pdf") ∧
    extract_text fetchPdfW parseBad (some [("url", urlXW)]) =
      (500, errorBody ("Failed to extract text from PDF: " ++ "bad pdf")) := by
  have h := extract_failure_propagates parseBad [1] "bad pdf" rfl
  exact ⟨h.1, h.2 fetchPdfW [("url", urlXW)] urlXW rfl (by decide) (by decide)⟩

/-! ### Claims about the Request Handler and the Health Monitor -/

/-- Claim C2: the `/extract-text` endpoint answers 400 with the
missing-field body when the JSON is null/empty or lacks `url`; 400 with the
invalid-format body when the URL does not start with `http`; 500 with the
failure's description and `status:"error"` whenever the download or the
extraction fails (the handler never crashes); and 200 with the extracted text
on full success. -/
theorem extract_text_endpoint_responses
    (fetch : List Char → Except String HttpResponse)
    (parse : List Nat → Except String (List (List Char))) :
    (extract_text fetch parse none = (400, missingFieldBody)) ∧
    (extract_text fetch parse (some []) = (400, missingFieldBody)) ∧
    (∀ kvs, kvs.lookup "url" = none →
      extract_text fetch parse (some kvs) = (400, missingFieldBody)) ∧
    (∀ kvs u, kvs.lookup "url" = some u → httpLit.isPrefixOf u = false →
      extract_text fetch parse (some kvs) = (400, invalidUrlBody)) ∧
    (∀ kvs u e, kvs.lookup "url" = some u → httpLit.isPrefixOf u = true →
      download_pdf fetch u = Except.error e →
      extract_text fetch parse (some kvs) = (500, errorBody e)) ∧
    (∀ kvs u c e, kvs.lookup "url" = some u → httpLit.isPrefixOf u = true →
      download_pdf fetch u = Except.ok c →
      extract_text_from_pdf parse c = Except.error e →
      extract_text fetch parse (some kvs) = (500, errorBody e)) ∧
    (∀ kvs u c t, kvs.lookup "url" = some u → httpLit.isPrefixOf u = true →
      download_pdf fetch u = Except.ok c →
      extract_text_from_pdf parse c = Except.ok t →
      extract_text fetch parse (some kvs) = (200, successBody t)) := by
  refine ⟨rfl, by simp [extract_text], ?_, ?_, ?_, ?_, ?_⟩
  · intro kvs h
    cases kvs with
    | nil => simp [extract_text]
    | cons kv kvs2 => simp [extract_text, h]
  · intro kvs u h1 h2
    cases kvs with
    | nil => simp at h1
    | cons kv kvs2 => simp [extract_text, h1, h2]
  · intro kvs u e h1 h2 h3
    cases kvs with
    | nil => simp at h1
    | cons kv kvs2 => simp [extract_text, h1, h2, h3]
  · intro kvs u c e h1 h2 h3 h4
    cases kvs with
    | nil => simp at h1
    | cons kv kvs2 => simp [extract_text, h1, h2, h3, h4]
  · intro kvs u c t h1 h2 h3 h4
    cases kvs with
    | nil => simp at h1
    | cons kv kvs2 => simp [extract_text, h1, h2, h3, h4]

/-- Witness for C2: a failing download surfaces as a 500 error response. -/
theorem extract_text_endpoint_responses_witness :
    extract_text fetchFail parseBad (some [("url", urlXW)]) =
      (500, errorBody ("Failed to download PDF: " ++ "boom")) := by
  have h := extract_text_endpoint_responses fetchFail parseBad
  exact h.2.2.2.2.1 [("url", urlXW)] urlXW ("Failed to download PDF: " ++ "boom")
    rfl (by decide) (by decide)

/-- Claim C5: every probe cycle — whichever branch runs, including the
exception branch — increments `checksPerformed` by exactly one (so the counter
never decreases) and sets `lastCheckTime` to the current time; the health
endpoint, the only other code touching the record, leaves it unchanged. -/
theorem perform_health_check_counter (outcome : ProbeOutcome) (now : Nat)
    (s : HealthState) :
    (perform_health_check outcome now s).checks_performed = s.checks_performed + 1 ∧
    (perform_health_check outcome now s).last_check = now ∧
    s.checks_performed ≤ (perform_health_check outcome now s).checks_performed ∧
    (health_check s now).2 = s := by
  cases outcome with
  | response code =>
    by_cases h : code = 200 <;>
      simp [perform_health_check, health_check, h, Nat.le_succ]
  | failure msg =>
    simp [perform_health_check, health_check, Nat.le_succ]

/-- Claim C6: the health record starts healthy with zero checks; a probe
cycle sets the status to healthy (clearing the error) on a 200 response, to
warning with a message naming the status code on any other response, and to
unhealthy with the failure's description on a raised error. -/
theorem health_state_machine (t0 now : Nat) (s : HealthState) :
    (health_status t0).status = HealthStatusKind.healthy ∧
    (health_status t0).checks_performed = 0 ∧
    ((perform_health_check (ProbeOutcome.response 200) now s).status =
        HealthStatusKind.healthy ∧
      (perform_health_check (ProbeOutcome.response 200) now s).last_error = none) ∧
    (∀ code, code ≠ 200 →
      (perform_health_check (ProbeOutcome.response code) now s).status =
          HealthStatusKind.warning ∧
      (perform_health_check (ProbeOutcome.response code) now s).last_error =
        some ("Test download failed with status " ++ code.repr)) ∧
    (∀ msg,
      (perform_health_check (ProbeOutcome.failure msg) now s).status =
          HealthStatusKind.unhealthy ∧
      (perform_health_check (ProbeOutcome.failure msg) now s).last_error =
        some msg) := by
  refine ⟨rfl, rfl, ?_, ?_, ?_⟩
  · simp [perform_health_check]
  · intro code h
    simp [perform_health_check, h]
  · intro msg
    simp [perform_health_check]

/-- Witness for C6: a 503 probe response produces a warning naming the code. -/
theorem health_state_machine_witness :
    (perform_health_check (ProbeOutcome.response 503) 7 (health_status 0)).status =
        HealthStatusKind.warning ∧
    (perform_health_check (ProbeOutcome.response 503) 7 (health_status 0)).last_error =
      some ("Test download failed with status " ++ (503 : Nat).repr) :=
  (health_state_machine 0 7 (health_status 0)).2.2.2.1 503 (by decide)

end PdfExtractor
